import Mathlib

/-!
Shallow embedding of the TinyMathAPI library (src/Vector.hpp, src/Matrix.hpp):
fixed-dimension vector and matrix value types over a numeric scalar type,
with elementwise arithmetic, dot/cross products, normalization,
interpolation, transpose, matrix multiplication and matrix-vector transform.

`Vector<T, N>` is modelled as `Vec α n := Fin n → α`, `Matrix<T, Rows, Cols>`
as `Mat α r c := Fin r → Fin c → α`.  The C++ scalar template parameter `T`
is modelled by a linearly ordered field `α` (the order is needed for the
`mag > 0` guard in `normalized`); `std::sqrt` is modelled by an explicit
function parameter `sq : α → α`.  The in-place compound-assignment
operators, which overwrite the receiver's storage cell by cell inside a
loop, are modelled as a left fold of `Function.update` over the loop's
index sequence, so that the order of the writes and the reads of the
partially-overwritten state are preserved exactly.
-/

namespace TinyMath

/-- Models the storage of `Vector<T, N>`: `std::array<T, N>`. -/
def Vec (α : Type) (n : Nat) : Type := Fin n → α

/-- `Vector()` — the default constructor, `data.fill(0)` (src/Vector.hpp:12). -/
def Vec.zero (α : Type) [LinearOrderedField α] (n : Nat) : Vec α n := fun _ => 0

/-- `Vector(std::initializer_list<T> values)` (src/Vector.hpp:13-15):
the backing array is zero-initialized, then the first
`min(N, values.size())` entries are copied from the list. -/
def Vec.ofList {α : Type} [LinearOrderedField α] {n : Nat} (l : List α) : Vec α n :=
  fun i => l.getD i 0

variable {α : Type} [LinearOrderedField α] {n : Nat}

/-- `Vector::apply` (src/Vector.hpp:109-114): elementwise combination of two
vectors by a binary operator, into a fresh result. -/
def Vec.apply (a b : Vec α n) (op : α → α → α) : Vec α n :=
  fun i => op (a i) (b i)

/-- `Vector::apply_scalar` (src/Vector.hpp:122-127): combines each component
with a fixed scalar, into a fresh result. -/
def Vec.applyScalar (a : Vec α n) (s : α) (op : α → α → α) : Vec α n :=
  fun i => op (a i) s

/-- `Vector::apply_self` (src/Vector.hpp:116-120): `std::transform` writing
back into `data` — cell `i` is overwritten with `op (data i) (b i)` in index
order, each read seeing all earlier writes. -/
def Vec.applySelf (a b : Vec α n) (op : α → α → α) : Vec α n :=
  (List.finRange n).foldl (fun st i => Function.update st i (op (st i) (b i))) a

/-- `Vector::apply_scalar_self` (src/Vector.hpp:129-133): in-place variant of
`applyScalar`, modelled like `applySelf`. -/
def Vec.applyScalarSelf (a : Vec α n) (s : α) (op : α → α → α) : Vec α n :=
  (List.finRange n).foldl (fun st i => Function.update st i (op (st i) s)) a

/-- `operator+` on vectors (src/Vector.hpp:18). -/
def Vec.add (a b : Vec α n) : Vec α n := Vec.apply a b (fun x y => x + y)

/-- `operator-` on vectors (src/Vector.hpp:19). -/
def Vec.sub (a b : Vec α n) : Vec α n := Vec.apply a b (fun x y => x - y)

/-- `operator*` on vectors, elementwise (src/Vector.hpp:20). -/
def Vec.mul (a b : Vec α n) : Vec α n := Vec.apply a b (fun x y => x * y)

/-- `operator/` on vectors, elementwise (src/Vector.hpp:21): raw
`std::divides`, no zero check. -/
def Vec.div (a b : Vec α n) : Vec α n := Vec.apply a b (fun x y => x / y)

/-- `operator*(const T&)` — vector times scalar (src/Vector.hpp:31). -/
def Vec.mulScalar (a : Vec α n) (s : α) : Vec α n :=
  Vec.applyScalar a s (fun x y => x * y)

/-- `operator/(const T&)` — vector divided by scalar (src/Vector.hpp:32):
raw `std::divides`, no zero check. -/
def Vec.divScalar (a : Vec α n) (s : α) : Vec α n :=
  Vec.applyScalar a s (fun x y => x / y)

/-- `Vector::dot` (src/Vector.hpp:40-45): `result = 0`, then
`result += data[i] * other.data[i]` for `i = 0..N-1`, in loop order. -/
def Vec.dot (a b : Vec α n) : α :=
  (List.finRange n).foldl (fun acc i => acc + a i * b i) 0

/-- `Vector::magnitude` (src/Vector.hpp:47-49): `std::sqrt(dot(*this))`,
with `std::sqrt` abstracted as `sq`. -/
def Vec.magnitude (sq : α → α) (a : Vec α n) : α := sq (Vec.dot a a)

/-- `Vector::normalized` (src/Vector.hpp:51-54):
`(mag > 0) ? *this / mag : *this`. -/
def Vec.normalized (sq : α → α) (a : Vec α n) : Vec α n :=
  if 0 < Vec.magnitude sq a then Vec.divScalar a (Vec.magnitude sq a) else a

/-- `Vector::operator-()` — negation (src/Vector.hpp:97): `*this * -1`. -/
def Vec.neg (a : Vec α n) : Vec α n := Vec.mulScalar a (-1)

/-- `Vector::cross` (src/Vector.hpp:66-74); `static_assert(N == 3)` is
reflected in the type: only `Vec α 3` operands exist. -/
def Vec.cross (a b : Vec α 3) : Vec α 3 :=
  Vec.ofList [a 1 * b 2 - a 2 * b 1,
              a 2 * b 0 - a 0 * b 2,
              a 0 * b 1 - a 1 * b 0]

/-- `Vector::lerp` (src/Vector.hpp:85-87): `start + (end - start) * t`. -/
def Vec.lerp (s e : Vec α n) (t : α) : Vec α n :=
  Vec.add s (Vec.mulScalar (Vec.sub e s) t)

/-- Models the storage of `Matrix<T, Rows, Cols>`:
`std::array<std::array<T, Cols>, Rows>`, row-major. -/
def Mat (α : Type) (r c : Nat) : Type := Fin r → Fin c → α

/-- `Matrix()` — default constructor, every cell zero (src/Matrix.hpp:14-18). -/
def Mat.zero (α : Type) [LinearOrderedField α] (r c : Nat) : Mat α r c := fun _ _ => 0

variable {r c : Nat}

/-- `Matrix::apply` (src/Matrix.hpp:94-103): entrywise combination of two
same-shaped matrices into a fresh result. -/
def Mat.apply (A B : Mat α r c) (op : α → α → α) : Mat α r c :=
  fun i j => op (A i j) (B i j)

/-- `Matrix::apply_scalar` (src/Matrix.hpp:115-124): combines each cell with
a fixed scalar, into a fresh result. -/
def Mat.applyScalar (A : Mat α r c) (s : α) (op : α → α → α) : Mat α r c :=
  fun i j => op (A i j) s

/-- The row-major index sequence `(0,0), (0,1), …, (Rows-1, Cols-1)` walked
by the nested `for` loops of the in-place matrix operations. -/
def Mat.rowMajorIndices (r c : Nat) : List (Fin r × Fin c) :=
  (List.finRange r) ×ˢ (List.finRange c)

/-- `Matrix::apply_self` (src/Matrix.hpp:105-113): the nested loops overwrite
`data[i][j]` in row-major order, each read seeing all earlier writes. -/
def Mat.applySelf (A B : Mat α r c) (op : α → α → α) : Mat α r c :=
  fun i j =>
    ((Mat.rowMajorIndices r c).foldl
      (fun st p => Function.update st p (op (st p) (B p.1 p.2)))
      (fun p : Fin r × Fin c => A p.1 p.2)) (i, j)

/-- `Matrix::apply_scalar_self` (src/Matrix.hpp:126-134): in-place variant of
`applyScalar`, modelled like `Mat.applySelf`. -/
def Mat.applyScalarSelf (A : Mat α r c) (s : α) (op : α → α → α) : Mat α r c :=
  fun i j =>
    ((Mat.rowMajorIndices r c).foldl
      (fun st p => Function.update st p (op (st p) s))
      (fun p : Fin r × Fin c => A p.1 p.2)) (i, j)

/-- `operator+` on matrices (src/Matrix.hpp:33). -/
def Mat.add (A B : Mat α r c) : Mat α r c := Mat.apply A B (fun x y => x + y)

/-- `operator-` on matrices (src/Matrix.hpp:34). -/
def Mat.sub (A B : Mat α r c) : Mat α r c := Mat.apply A B (fun x y => x - y)

/-- `operator*(const T&)` — matrix times scalar (src/Matrix.hpp:44). -/
def Mat.mulScalar (A : Mat α r c) (s : α) : Mat α r c :=
  Mat.applyScalar A s (fun x y => x * y)

/-- `operator/(const T&)` — matrix divided by scalar (src/Matrix.hpp:45):
raw `std::divides`, no zero check. -/
def Mat.divScalar (A : Mat α r c) (s : α) : Mat α r c :=
  Mat.applyScalar A s (fun x y => x / y)

/-- `Matrix::transpose` (src/Matrix.hpp:53-61).  The C++ return type is
`Matrix`, i.e. `Matrix<T, Rows, Cols>` — the SAME shape as the receiver, not
`Matrix<T, Cols, Rows>`; the assignments `result[j][i] = data[i][j]` stay in
bounds only when `Rows == Cols`, so the embedding is over square matrices,
where the loop fills every cell: `result j i = A i j`. -/
def Mat.transpose (A : Mat α n n) : Mat α n n := fun j i => A i j

/-- The sequence of destination indices `(j, i)` written by the transpose
loops `for i in [0,Rows) for j in [0,Cols): result[j][i] = data[i][j]`
(src/Matrix.hpp:55-59), as plain naturals so that out-of-range destinations
can be stated.  The result being a `Rows × Cols` array, a write `(j, i)` is
in bounds only when `j < Rows` and `i < Cols`. -/
def Mat.transposeWriteIndices (rows cols : Nat) : List (Nat × Nat) :=
  ((List.range rows) ×ˢ (List.range cols)).map (fun p => (p.2, p.1))

/-- `Matrix::multiply` (src/Matrix.hpp:136-148).  `operator*` takes another
`Matrix` of the very same type `Matrix<T, Rows, Cols>`, and
`static_assert(Cols == Rows)` requires the (left) matrix itself to be
square, so the embedding is `Mat α n n → Mat α n n → Mat α n n`:
`result[i][j] = 0` then `result[i][j] += data[i][k] * other[k][j]` for
`k = 0..Cols-1` in loop order. -/
def Mat.multiply (A B : Mat α n n) : Mat α n n :=
  fun i j => (List.finRange n).foldl (fun acc k => acc + A i k * B k j) 0

/-- `Matrix::transform` (src/Matrix.hpp:64-75): `static_assert(Rows == N)`
forces the vector argument's length to equal the matrix's ROW count, so the
input and output are both `Vec α r`; the inner loop reads `vec[j]` for
`j = 0..Cols-1`, which stays inside the length-`Rows` vector only when
`Cols ≤ Rows` (hypothesis `h`): `result[i] = 0` then
`result[i] += data[i][j] * vec[j]` in loop order. -/
def Mat.transform (h : c ≤ r) (A : Mat α r c) (v : Vec α r) : Vec α r :=
  fun i => (List.finRange c).foldl (fun acc j => acc + A i j * v (Fin.castLE h j)) 0

/-! ### Helper lemmas -/

/-- An accumulate-in-a-loop sum `acc += f i` equals the initial value plus
the list sum. -/
theorem foldl_add_eq_add_sum {ι : Type} (f : ι → α) :
    ∀ (l : List ι) (c0 : α), l.foldl (fun acc i => acc + f i) c0 = c0 + (l.map f).sum := by
  intro l
  induction l with
  | nil => intro c0; simp
  | cons x xs ih => intro c0; simp [ih, add_assoc]

/-- The `result += term` loops of `dot`, `multiply` and `transform` compute
the big-operator sum over `Fin n`. -/
theorem foldl_add_eq_sum (f : Fin n → α) :
    (List.finRange n).foldl (fun acc i => acc + f i) 0 = ∑ i, f i := by
  rw [foldl_add_eq_add_sum f (List.finRange n) 0, zero_add]
  exact (Fin.sum_univ_def f).symm

/-- Effect of a loop that overwrites cell `i` with `g i` of its current
content, over a duplicate-free index list: every visited cell ends up
holding `g` of its ORIGINAL content, because each cell is written exactly
once and read only at its own step. -/
theorem foldl_update_eq {ι δ : Type} [DecidableEq ι] (g : ι → δ → δ) :
    ∀ (l : List ι), l.Nodup → ∀ (st a : ι → δ), (∀ j, j ∈ l → st j = a j) →
      l.foldl (fun s i => Function.update s i (g i (s i))) st
        = fun j => if j ∈ l then g j (a j) else st j := by
  intro l
  induction l with
  | nil =>
      intro _ st a _
      funext j
      simp
  | cons x xs ih =>
      intro hnd st a hst
      obtain ⟨hx, hxs⟩ := List.nodup_cons.mp hnd
      rw [List.foldl_cons]
      have hst2 : ∀ j, j ∈ xs → Function.update st x (g x (st x)) j = a j := by
        intro j hj
        have hjx : j ≠ x := fun e => hx (e ▸ hj)
        rw [Function.update_noteq hjx]
        exact hst j (List.mem_cons_of_mem x hj)
      rw [ih hxs (Function.update st x (g x (st x))) a hst2]
      funext j
      by_cases hjx : j = x
      · subst hjx
        have : j ∉ xs := hx
        simp [this, Function.update_same, hst j (List.mem_cons_self j xs)]
      · by_cases hjxs : j ∈ xs
        · simp [hjxs, List.mem_cons, Function.update_noteq hjx]
        · simp [hjxs, hjx, Function.update_noteq hjx]

/-- The in-place elementwise vector loop computes the same function as the
fresh-result one. -/
theorem Vec.applySelf_eq (a b : Vec α n) (op : α → α → α) :
    Vec.applySelf a b op = Vec.apply a b op := by
  have h := foldl_update_eq (fun i x => op x (b i)) (List.finRange n)
    (List.nodup_finRange n) a a (fun j _ => rfl)
  funext j
  have hj : Vec.applySelf a b op j
      = if j ∈ List.finRange n then op (a j) (b j) else a j := congrFun h j
  simpa [List.mem_finRange, Vec.apply] using hj

/-- The in-place scalar vector loop computes the same function as the
fresh-result one. -/
theorem Vec.applyScalarSelf_eq (a : Vec α n) (s : α) (op : α → α → α) :
    Vec.applyScalarSelf a s op = Vec.applyScalar a s op := by
  have h := foldl_update_eq (fun _ x => op x s) (List.finRange n)
    (List.nodup_finRange n) a a (fun j _ => rfl)
  funext j
  have hj : Vec.applyScalarSelf a s op j
      = if j ∈ List.finRange n then op (a j) s else a j := congrFun h j
  simpa [List.mem_finRange, Vec.applyScalar] using hj

/-- Every pair of valid indices is visited by the row-major loops. -/
theorem Mat.mem_rowMajorIndices (p : Fin r × Fin c) : p ∈ Mat.rowMajorIndices r c := by
  obtain ⟨i, j⟩ := p
  simp [Mat.rowMajorIndices, List.mem_product, List.mem_finRange]

/-- The row-major loops visit no cell twice. -/
theorem Mat.nodup_rowMajorIndices : (Mat.rowMajorIndices r c).Nodup :=
  (List.nodup_finRange r).product (List.nodup_finRange c)

/-- The in-place entrywise matrix loops compute the same function as the
fresh-result ones. -/
theorem Mat.applySelf_eq_entrywise (A B : Mat α r c) (op : α → α → α) :
    Mat.applySelf A B op = Mat.apply A B op := by
  have h := foldl_update_eq (fun p x => op x (B p.1 p.2)) (Mat.rowMajorIndices r c)
    Mat.nodup_rowMajorIndices (fun p : Fin r × Fin c => A p.1 p.2)
    (fun p : Fin r × Fin c => A p.1 p.2) (fun j _ => rfl)
  funext i j
  have hj := congrFun h (i, j)
  rw [if_pos (Mat.mem_rowMajorIndices (i, j))] at hj
  exact hj

/-- The in-place scalar matrix loops compute the same function as the
fresh-result ones. -/
theorem Mat.applyScalarSelf_eq_entrywise (A : Mat α r c) (s : α) (op : α → α → α) :
    Mat.applyScalarSelf A s op = Mat.applyScalar A s op := by
  have h := foldl_update_eq (fun _ x => op x s) (Mat.rowMajorIndices r c)
    Mat.nodup_rowMajorIndices (fun p : Fin r × Fin c => A p.1 p.2)
    (fun p : Fin r × Fin c => A p.1 p.2) (fun j _ => rfl)
  funext i j
  have hj := congrFun h (i, j)
  rw [if_pos (Mat.mem_rowMajorIndices (i, j))] at hj
  exact hj

/-- The dot product of the zero vector with itself is `0`. -/
theorem Vec.dot_zero_zero : Vec.dot (Vec.zero α n) (Vec.zero α n) = 0 := by
  have h : Vec.dot (Vec.zero α n) (Vec.zero α n)
      = (List.finRange n).foldl (fun acc i => acc + (fun _ : Fin n => (0:α) * 0) i) 0 := by
    simp [Vec.dot, Vec.zero]
  rw [h, foldl_add_eq_sum]
  simp

/-! ### Claims -/

/-- C1: the spec says `transpose()` returns a Cols×Rows matrix, but the code
returns the receiver's own type `Matrix<T, Rows, Cols>`; on a 2×3 matrix the
loop writes destination index `(2, 0)`, i.e. row 2 of a 2-row result — out of
bounds.  On square matrices, where the result type coincides with Cols×Rows
and every write is in range, the claimed entry formula
`result[j][i] = A[i][j]` does hold. -/
theorem C1_transpose_return_shape :
    (2, 0) ∈ Mat.transposeWriteIndices 2 3 ∧
    (∀ (β : Type) (instF : LinearOrderedField β) (m : Nat) (A : Mat β m m)
      (i : Fin m) (j : Fin m), Mat.transpose A j i = A i j) :=
  ⟨by decide, fun _ _ _ _ _ _ => rfl⟩

/-- C2: `operator*` takes a second operand of the very same
`Matrix<T, Rows, Cols>` type and `static_assert`s that the (left) matrix is
itself square, so the embedded `Mat.multiply` is typed on two n×n matrices;
it computes the standard row-by-column product
`result[i][j] = Σ_k left[i][k] * right[k][j]`. -/
theorem C2_multiply_row_by_column (A B : Mat α n n) (i j : Fin n) :
    Mat.multiply A B i j = ∑ k, A i k * B k j :=
  foldl_add_eq_sum (fun k => A i k * B k j)

/-- C3: `transform`'s `static_assert(Rows == N)` makes the vector's length
equal the matrix's ROW count (not its column count), so input and output are
both length-Rows vectors, and `result[i] = Σ_j self[i][j] * vector[j]` with
`j` ranging over the matrix's columns; the inner read `vector[j]` stays in
bounds exactly when Cols ≤ Rows, recorded as the hypothesis `h`. -/
theorem C3_transform_spec (h : c ≤ r) (A : Mat α r c) (v : Vec α r) (i : Fin r) :
    Mat.transform h A v i = ∑ j, A i j * v (Fin.castLE h j) :=
  foldl_add_eq_sum (fun j => A i j * v (Fin.castLE h j))

/-- Witness for C3: the identity-like 3×3 matrix applied to `(7, 8, 9)`
reproduces component 0 (spec Scenario 4). -/
theorem C3_transform_witness :
    (3:Nat) ≤ 3 ∧
      Mat.transform (le_refl 3) ((fun i j => if i = j then (1:ℚ) else 0) : Mat ℚ 3 3)
        (Vec.ofList [7, 8, 9]) 0 = 7 := by
  refine ⟨le_refl 3, ?_⟩
  rw [C3_transform_spec (le_refl 3) ((fun i j => if i = j then (1:ℚ) else 0) : Mat ℚ 3 3)
    (Vec.ofList [7, 8, 9]) 0]
  norm_num [Fin.sum_univ_three, Vec.ofList, Fin.castLE]

/-- C4: `normalized` divides by the magnitude when `mag > 0` and otherwise
returns the vector unchanged; with any square root mapping `0` to `0` (as
`std::sqrt` does), the zero vector is returned unchanged — the guarded
branch, no division performed. -/
theorem C4_normalized_guard (sq : α → α) (a : Vec α n) :
    (0 < Vec.magnitude sq a →
        Vec.normalized sq a = Vec.divScalar a (Vec.magnitude sq a)) ∧
    (¬ 0 < Vec.magnitude sq a → Vec.normalized sq a = a) ∧
    (sq 0 = 0 → Vec.normalized sq (Vec.zero α n) = Vec.zero α n) := by
  refine ⟨fun h => if_pos h, fun h => if_neg h, fun h0 => ?_⟩
  have hmag : Vec.magnitude sq (Vec.zero α n) = 0 := by
    rw [Vec.magnitude, Vec.dot_zero_zero, h0]
  simp [Vec.normalized, hmag]

/-- Witness for C4: over ℚ with `sq = id`, the vector `(3, 4)` has positive
magnitude `25` and is divided by it, and the zero vector comes back
unchanged. -/
theorem C4_normalized_witness :
    ((0:ℚ) < Vec.magnitude (fun x => x) (Vec.ofList [3, 4] : Vec ℚ 2) ∧
      Vec.normalized (fun x => x) (Vec.ofList [3, 4] : Vec ℚ 2)
        = Vec.divScalar (Vec.ofList [3, 4] : Vec ℚ 2)
            (Vec.magnitude (fun x => x) (Vec.ofList [3, 4] : Vec ℚ 2))) ∧
    ((fun x : ℚ => x) 0 = 0 ∧
      Vec.normalized (fun x => x) (Vec.zero ℚ 2) = Vec.zero ℚ 2) := by
  have hpos : (0:ℚ) < Vec.magnitude (fun x => x) (Vec.ofList [3, 4] : Vec ℚ 2) := by
    norm_num [Vec.magnitude, Vec.dot, Vec.ofList, List.finRange, List.ofFn_succ]
  exact ⟨⟨hpos, (C4_normalized_guard (fun x => x) (Vec.ofList [3, 4] : Vec ℚ 2)).1 hpos⟩,
    rfl, (C4_normalized_guard (fun x => x) (Vec.zero ℚ 2)).2.2 rfl⟩

/-- C5: the scalar-list constructor zero-fills the backing array and copies
only the first `min(N, list length)` values: an index past the supplied list
reads `0`, every index reads the same value as from the list truncated to
`N`, and the default constructor gives all zeros. -/
theorem C5_ofList_pad_truncate (l : List α) (i : Fin n) :
    (l.length ≤ (i:Nat) → (Vec.ofList l : Vec α n) i = 0) ∧
    (Vec.ofList l : Vec α n) i = (Vec.ofList (l.take n) : Vec α n) i ∧
    Vec.zero α n i = 0 := by
  refine ⟨fun h => List.getD_eq_default l 0 h, ?_, rfl⟩
  show l.getD i 0 = (l.take n).getD i 0
  rw [List.getD_eq_getElem?_getD, List.getD_eq_getElem?_getD,
    List.getElem?_take_of_lt i.isLt]

/-- Witness for C5: a 4-vector built from `[5, 6]` has `0` in slot 2, and a
2-vector built from `[1, 2, 3]` agrees with one built from the truncated
list. -/
theorem C5_ofList_witness :
    ([(5:ℚ), 6].length ≤ ((2 : Fin 4) : Nat) ∧ (Vec.ofList [(5:ℚ), 6] : Vec ℚ 4) 2 = 0) ∧
    (Vec.ofList [(1:ℚ), 2, 3] : Vec ℚ 2) 0 = (Vec.ofList ([(1:ℚ), 2, 3].take 2) : Vec ℚ 2) 0 :=
  ⟨⟨by decide, (C5_ofList_pad_truncate [(5:ℚ), 6] 2).1 (by decide)⟩,
    (C5_ofList_pad_truncate [(1:ℚ), 2, 3] 0).2.1⟩

/-- C6: vector/vector division, vector/scalar division and matrix/scalar
division are the raw pointwise quotients for EVERY divisor — including zero
— with no guard and no error value; the only defensive branch is the
magnitude guard in `normalized`. -/
theorem C6_division_unguarded (a b : Vec α n) (A : Mat α r c) (s : α)
    (i : Fin n) (p : Fin r) (q : Fin c) :
    Vec.div a b i = a i / b i ∧
    Vec.divScalar a s i = a i / s ∧
    Mat.divScalar A s p q = A p q / s ∧
    Vec.divScalar a 0 i = a i / 0 ∧
    (∀ sq : α → α, ¬ 0 < Vec.magnitude sq a → Vec.normalized sq a = a) :=
  ⟨rfl, rfl, rfl, rfl, fun _ h => if_neg h⟩

/-- Witness for C6: dividing the 1-vector `(1)` by the scalar `0` yields the
raw quotient `1 / 0`, and the zero vector's non-positive magnitude takes the
guarded branch of `normalized`. -/
theorem C6_division_witness :
    Vec.divScalar (Vec.ofList [1] : Vec ℚ 1) 0 0 = (1:ℚ) / 0 ∧
    Vec.normalized (fun x => x) (Vec.zero ℚ 1) = Vec.zero ℚ 1 := by
  have h := C6_division_unguarded (Vec.ofList [1] : Vec ℚ 1) (Vec.zero ℚ 1)
    (Mat.zero ℚ 1 1) 0 0 0 0
  refine ⟨h.2.2.2.1, ?_⟩
  have hz := C6_division_unguarded (Vec.zero ℚ 1) (Vec.zero ℚ 1)
    (Mat.zero ℚ 1 1) 0 0 0 0
  refine hz.2.2.2.2 (fun x => x) ?_
  norm_num [Vec.magnitude, Vec.dot, Vec.zero, List.finRange, List.ofFn_succ]

/-- C7: elementwise addition and subtraction round-trip,
`(a + b) - b = a`, and addition is commutative, `a + b = b + a`. -/
theorem C7_add_sub_roundtrip_comm (a b : Vec α n) :
    Vec.sub (Vec.add a b) b = a ∧ Vec.add a b = Vec.add b a := by
  refine ⟨funext fun i => ?_, funext fun i => ?_⟩ <;>
    simp [Vec.add, Vec.sub, Vec.apply] <;> ring

/-- C8: the 3-vector cross product is anti-commutative,
`cross(a, b) = -cross(b, a)`; the `static_assert(N == 3)` restriction is
reflected in `Vec.cross` being typed on `Vec α 3` only. -/
theorem C8_cross_antisymm (a b : Vec α 3) :
    Vec.cross a b = Vec.neg (Vec.cross b a) := by
  funext i
  fin_cases i <;>
    simp [Vec.cross, Vec.neg, Vec.mulScalar, Vec.applyScalar, Vec.ofList] <;> ring

/-- C9: `lerp(start, end, t) = start + (end - start) * t` for every
(unclamped) `t`, and in particular `lerp(start, end, 0) = start` and
`lerp(start, end, 1) = end`. -/
theorem C9_lerp_formula_endpoints (s e : Vec α n) (t : α) :
    Vec.lerp s e t = Vec.add s (Vec.mulScalar (Vec.sub e s) t) ∧
    Vec.lerp s e 0 = s ∧ Vec.lerp s e 1 = e := by
  refine ⟨rfl, funext fun i => ?_, funext fun i => ?_⟩ <;>
    simp [Vec.lerp, Vec.add, Vec.sub, Vec.mulScalar, Vec.apply, Vec.applyScalar]

/-- C10: for every binary combinator `op` — hence for each of the `+=`,
`-=`, `*=`, `/=` operator instantiations — the in-place compound-assignment
loops on vectors and matrices leave the receiver equal to what the
non-mutating form computes from its prior value, for both the
elementwise and the scalar variants. -/
theorem C10_compound_assignment_eq (op : α → α → α) (a b : Vec α n) (s : α)
    (A B : Mat α r c) :
    Vec.applySelf a b op = Vec.apply a b op ∧
    Vec.applyScalarSelf a s op = Vec.applyScalar a s op ∧
    Mat.applySelf A B op = Mat.apply A B op ∧
    Mat.applyScalarSelf A s op = Mat.applyScalar A s op :=
  ⟨Vec.applySelf_eq a b op, Vec.applyScalarSelf_eq a s op,
    Mat.applySelf_eq_entrywise A B op, Mat.applyScalarSelf_eq_entrywise A s op⟩

end TinyMath
